import Mathlib

/-!
Verification of the parallel job scheduler primitive of
src/src/libplatform/default-job.h (classes DefaultJobState, DefaultJobHandle,
DefaultJobWorker and DefaultJobState::JobDelegate).

Only the header is part of the sources: the bodies of the DefaultJobState
methods (NotifyConcurrencyIncrease, AcquireTaskId, ReleaseTaskId, Join,
CancelAndWait, IsCompleted, CanRunFirstTask, DidRunTask), of the JobDelegate
destructor and GetTaskId, and of the DefaultJobHandle methods live in the
missing default-job.cc.  Those are modelled from the spec (each such
definition carries a doc comment saying so).  DefaultJobWorker::Run is inline
in the header (lines 124-132) and is embedded directly from the source.

Machine integers: size_t counters become Nat (every call context keeps them
positive before a decrement, see the respective doc comments); the 32-bit
atomic bitmask assigned_task_ids_ becomes a Nat that the invariants keep
below 2^32.  The condition variable worker_released_condition_ is modelled
as a counter of NotifyOne signals.  Concurrency is modelled by a step
relation in which the current GetMaxConcurrency estimate of the opaque job
task is an arbitrary function chosen anew at every decision point.
-/

namespace V8Job

/-- Sentinel for a delegate that has not acquired a task id
(default-job.h line 37: kInvalidTaskId = numeric_limits of uint8_t). -/
def kInvalidTaskId : Nat := 255

/-- Index of the lowest clear bit, by scanning the binary digits; the fuel
argument only bounds the recursion and any fuel at least the scanned number
gives the same value (a number m has a clear bit among its lowest m+1 bits). -/
def lowestClearBitAux : Nat → Nat → Nat
  | 0, _ => 0
  | fuel + 1, m => if m % 2 = 0 then 0 else lowestClearBitAux fuel (m / 2) + 1

/-- Index of the lowest clear bit of a natural number, the value computed by
CountTrailingZeros32 of the complement in AcquireTaskId. -/
def lowestClearBit (m : Nat) : Nat :=
  lowestClearBitAux m m

/-- Modelled from the spec: body of DefaultJobState::AcquireTaskId (declared
at default-job.h line 49, body in the missing default-job.cc).  Returns the
lowest-numbered bit not currently set in the bitmask and sets it; a
successful compare-and-set of the retry loop is one atomic step of the
trace model below. -/
def acquireId (m : Nat) : Nat × Nat :=
  let id := lowestClearBit m
  (m ||| (1 <<< id), id)

/-- Modelled from the spec: body of DefaultJobState::ReleaseTaskId (declared
at default-job.h line 50, body in the missing default-job.cc).  Atomically
clears the given bit (fetch_and with the complement mask; on a Nat this is
subtraction when the bit is set, identity otherwise). -/
def releaseId (m : Nat) (i : Nat) : Nat :=
  if m.testBit i then m - (1 <<< i) else m

/-- Number of task ids currently held: set bits of the mask among 0..31. -/
def heldCount (m : Nat) : Nat :=
  (List.range 32).countP (fun i => m.testBit i)

/-- One atomic operation on the assigned_task_ids bitmask: a successful
acquire, or a release of id i. -/
inductive IdOp where
  | acq : IdOp
  | rel : Nat → IdOp

/-- Validity of an interleaving of acquire/release steps starting from mask m:
an acquire happens only while fewer than 32 ids are held (at most 32
concurrent callers, the acquirer holding none), and a release names an id
that is currently held (spec: safe to call exactly once per acquired id). -/
def validOps : Nat → List IdOp → Bool
  | _, [] => true
  | m, IdOp.acq :: ops => heldCount m < 32 && validOps (acquireId m).1 ops
  | m, IdOp.rel i :: ops => (decide (i < 32) && m.testBit i) && validOps (releaseId m i) ops

/-- The mask reached after an interleaving of acquire/release steps. -/
def runMask (m : Nat) : List IdOp → Nat
  | [] => m
  | IdOp.acq :: ops => runMask (acquireId m).1 ops
  | IdOp.rel i :: ops => runMask (releaseId m i) ops

/-- The state of DefaultJobState protected by mutex_ together with its two
atomics (default-job.h lines 78-95).  The platform pointer and the job task
are external; the job task enters as an explicit GetMaxConcurrency estimate
argument to each operation.  worker_released_signals counts the NotifyOne
calls on worker_released_condition_. -/
structure JobState where
  priority : Nat
  active_workers : Nat
  pending_tasks : Nat
  is_canceled : Bool
  num_worker_threads : Nat
  assigned_task_ids : Nat
  worker_released_signals : Nat
  deriving Repr, DecidableEq

/-- A freshly constructed job state with no workers. -/
def initialJobState (ntw : Nat) : JobState :=
  { priority := 0
    active_workers := 0
    pending_tasks := 0
    is_canceled := false
    num_worker_threads := ntw
    assigned_task_ids := 0
    worker_released_signals := 0 }

/-- Modelled from the spec: body of DefaultJobState::CappedMaxConcurrency
(declared at default-job.h line 74, body in the missing default-job.cc):
GetMaxConcurrency of the job task, capped by num_worker_threads.  The
current estimate enters as the function gw. -/
def CappedMaxConcurrency (gw : Nat → Nat) (s : JobState) (worker_count : Nat) : Nat :=
  min (gw worker_count) s.num_worker_threads

/-- Modelled from the spec: body of DefaultJobState::NotifyConcurrencyIncrease
(declared at default-job.h line 48, body in the missing default-job.cc).
No-op when canceled; otherwise recomputes the capped maximum concurrency and,
for every slot between active_workers + pending_tasks and that cap, posts one
new worker (second component: number of workers handed to the executor) and
increments pending_tasks. -/
def NotifyConcurrencyIncrease (gw : Nat → Nat) (s : JobState) : JobState × Nat :=
  if s.is_canceled then (s, 0)
  else
    let cap := CappedMaxConcurrency gw s s.active_workers
    let n := cap - (s.active_workers + s.pending_tasks)
    ({ s with pending_tasks := s.pending_tasks + n }, n)

/-- AcquireTaskId on the job state: acts on the assigned_task_ids field via
acquireId, returning the acquired id. -/
def AcquireTaskId (s : JobState) : JobState × Nat :=
  let r := acquireId s.assigned_task_ids
  ({ s with assigned_task_ids := r.1 }, r.2)

/-- ReleaseTaskId on the job state: clears the bit of the given id. -/
def ReleaseTaskId (s : JobState) (i : Nat) : JobState :=
  { s with assigned_task_ids := releaseId s.assigned_task_ids i }

/-- Modelled from the spec: body of DefaultJobState::CanRunFirstTask (declared
at default-job.h lines 56-59, body in the missing default-job.cc).  Called
once by a freshly scheduled worker, which was counted in pending_tasks, so
pending_tasks is positive at every call site.  Under the lock: decrements
pending_tasks; returns false if the job is canceled or the recomputed capped
concurrency has no room for this worker given current active_workers;
otherwise increments active_workers and returns true. -/
def CanRunFirstTask (gw : Nat → Nat) (s : JobState) : JobState × Bool :=
  let s1 := { s with pending_tasks := s.pending_tasks - 1 }
  if s1.is_canceled then (s1, false)
  else if CappedMaxConcurrency gw s1 s1.active_workers ≤ s1.active_workers then (s1, false)
  else ({ s1 with active_workers := s1.active_workers + 1 }, true)

/-- Modelled from the spec: body of DefaultJobState::DidRunTask (declared at
default-job.h lines 60-62, body in the missing default-job.cc).  Called by a
worker that holds a slot (active_workers is positive at every call site).
Under the lock: re-checks cancellation and the current capped concurrency
(recomputed for the worker count excluding this worker) against
active_workers.  If the worker may continue it returns true keeping the
slot; otherwise it decrements active_workers, signals
worker_released_condition_, and returns false. -/
def DidRunTask (gw : Nat → Nat) (s : JobState) : JobState × Bool :=
  if s.is_canceled = false ∧
      s.active_workers ≤ CappedMaxConcurrency gw s (s.active_workers - 1) then
    (s, true)
  else
    ({ s with
        active_workers := s.active_workers - 1
        worker_released_signals := s.worker_released_signals + 1 }, false)

/-- Setting the cancellation flag (the first half of CancelAndWait). -/
def Cancel (s : JobState) : JobState :=
  { s with is_canceled := true }

/-- Draining of the remaining workers observed while CancelAndWait blocks on
the condition variable: each posted worker retires through CanRunFirstTask,
each active worker retires through the normal DidRunTask path.  Fueled by
the number of outstanding workers. -/
def drainWorkers (gw : Nat → Nat) : Nat → JobState → JobState
  | 0, s => s
  | n + 1, s =>
    if 0 < s.pending_tasks then drainWorkers gw n (CanRunFirstTask gw s).1
    else if 0 < s.active_workers then drainWorkers gw n (DidRunTask gw s).1
    else s

/-- Modelled from the spec: body of DefaultJobState::CancelAndWait (declared
at default-job.h line 53, body in the missing default-job.cc).  Sets
is_canceled, then blocks until active_workers reaches zero and no further
workers are pending; the state it returns is the quiesced state observed
when the wait ends. -/
def CancelAndWait (gw : Nat → Nat) (s : JobState) : JobState :=
  drainWorkers gw (s.pending_tasks + s.active_workers) (Cancel s)

/-- Modelled from the spec: body of DefaultJobState::IsCompleted (declared at
default-job.h line 54, body in the missing default-job.cc): true iff the job
task currently reports zero desired concurrency and there are no active or
pending workers. -/
def IsCompleted (gw : Nat → Nat) (s : JobState) : Bool :=
  gw s.active_workers == 0 && s.active_workers == 0 && s.pending_tasks == 0

/-- The per-worker delegate (default-job.h lines 22-42): its only state is
the lazily acquired task id, initialised to kInvalidTaskId. -/
structure JobDelegate where
  task_id : Nat
  deriving Repr, DecidableEq

/-- A freshly constructed delegate (default-job.h line 41). -/
def JobDelegate.init : JobDelegate :=
  { task_id := kInvalidTaskId }

/-- Modelled from the spec: body of JobDelegate::GetTaskId (declared at
default-job.h line 34, body in the missing default-job.cc): lazily acquires
a task id from assigned_task_ids on first use, then returns the stored id. -/
def GetTaskId (s : JobState) (d : JobDelegate) : JobState × JobDelegate × Nat :=
  if d.task_id = kInvalidTaskId then
    let r := AcquireTaskId s
    (r.1, { task_id := r.2 }, r.2)
  else (s, d, d.task_id)

/-- Modelled from the spec: body of the JobDelegate destructor (declared at
default-job.h line 25, body in the missing default-job.cc): releases the
task id iff one was acquired. -/
def delegateDestroy (s : JobState) (d : JobDelegate) : JobState :=
  if d.task_id = kInvalidTaskId then s else ReleaseTaskId s d.task_id

/-- The caller-facing handle (default-job.h lines 98-116): an optional strong
reference to the job state (none once released by Join, Cancel or
destruction). -/
structure DefaultJobHandle where
  state : Option JobState

/-- Modelled from the spec: body of the DefaultJobHandle destructor (declared
at default-job.h line 101, body in the missing default-job.cc).  When the
handle still holds its reference it cancels-and-waits, blocking until the
job has quiesced, then drops the reference; the second component is the
quiesced job state it observed (none if the reference was already gone). -/
def handleDestroy (gw : Nat → Nat) (h : DefaultJobHandle) : DefaultJobHandle × Option JobState :=
  match h.state with
  | none => (⟨none⟩, none)
  | some s => (⟨none⟩, some (CancelAndWait gw s))

/-- The loop of DefaultJobWorker::Run (default-job.h lines 129-131):
do job_task_.Run(delegate) while (DidRunTask()).  The job task is opaque,
so an invocation is counted, not interpreted; gs k is the GetMaxConcurrency
estimate the k-th decision point observes.  Fueled, since the source loop
need not terminate; returns the final state and the number of invocations
performed by this worker. -/
def runLoop (gs : Nat → Nat → Nat) : Nat → Nat → JobState → Option (JobState × Nat)
  | 0, _, _ => none
  | fuel + 1, k, s =>
    let r := DidRunTask (gs k) s
    if r.2 then (runLoop gs fuel (k + 1) r.1).map (fun p => (p.1, p.2 + 1))
    else some (r.1, 1)

/-- DefaultJobWorker::Run (default-job.h lines 124-132).  The input is the
result of locking the weak reference to the job state: none when the job has
been fully torn down, in which case Run returns at once with no effect and
zero invocations.  Otherwise it calls CanRunFirstTask (estimate gs 0) and,
if allowed, invokes the job task and loops while DidRunTask (estimate gs k
at the k-th decision) returns true. -/
def runWorker (gs : Nat → Nat → Nat) (fuel : Nat) (st : Option JobState) :
    Option (Option JobState × Nat) :=
  match st with
  | none => some (none, 0)
  | some s =>
    let c := CanRunFirstTask (gs 0) s
    if c.2 then (runLoop gs fuel 1 c.1).map (fun p => (some p.1, p.2))
    else some (some c.1, 0)

/-- Modelled from the spec: inner run loop of DefaultJobState::Join (declared
at default-job.h line 52, body in the missing default-job.cc): the joining
thread, holding a worker slot, invokes the job task and keeps the slot while
DidRunTask allows; g i is the estimate observed when i invocations have
happened in total.  Returns the state after this participation retires and
the new total invocation count. -/
def JoinRunInner (g : Nat → Nat → Nat) : Nat → JobState → Nat → Option (JobState × Nat)
  | 0, _, _ => none
  | fuel + 1, s, inv =>
    let r := DidRunTask (g (inv + 1)) s
    if r.2 then JoinRunInner g fuel r.1 (inv + 1)
    else some (r.1, inv + 1)

/-- Modelled from the spec: body of DefaultJobState::Join (declared at
default-job.h line 52, body in the missing default-job.cc).  The calling
thread becomes a temporary worker: it returns when the job task reports zero
remaining desired concurrency and all workers have retired (the IsCompleted
condition); otherwise, when not canceled and the capped concurrency has room,
it claims a slot and runs inline via JoinRunInner; otherwise it blocks on the
condition variable waiting for other workers to retire and re-evaluates.
Fueled; inv is the total number of job task invocations so far. -/
def Join (g : Nat → Nat → Nat) : Nat → JobState → Nat → Option (JobState × Nat)
  | 0, _, _ => none
  | fuel + 1, s, inv =>
    if IsCompleted (g inv) s then some (s, inv)
    else if s.is_canceled = false ∧
        s.active_workers < CappedMaxConcurrency (g inv) s s.active_workers then
      (JoinRunInner g (fuel + 1) { s with active_workers := s.active_workers + 1 } inv).bind
        (fun p => Join g fuel p.1 p.2)
    else
      Join g fuel s inv

/-- A system configuration: the shared job state plus the total number of
job task invocations performed so far (the observable counter of the spec). -/
structure Sys where
  js : JobState
  invocations : Nat

/-- One atomic transition of the scheduler: each decision point samples an
arbitrary current GetMaxConcurrency estimate gw (the estimate may change at
any time); a worker invokes the job task only while holding a slot; a posted
worker calls CanRunFirstTask only while counted in pending_tasks. -/
inductive Step : Sys → Sys → Prop where
  | notify (gw : Nat → Nat) (σ : Sys) :
      Step σ ⟨(NotifyConcurrencyIncrease gw σ.js).1, σ.invocations⟩
  | firstTask (gw : Nat → Nat) (σ : Sys) (h : 0 < σ.js.pending_tasks) :
      Step σ ⟨(CanRunFirstTask gw σ.js).1, σ.invocations⟩
  | invoke (σ : Sys) (h : 0 < σ.js.active_workers) :
      Step σ ⟨σ.js, σ.invocations + 1⟩
  | didRun (gw : Nat → Nat) (σ : Sys) (h : 0 < σ.js.active_workers) :
      Step σ ⟨(DidRunTask gw σ.js).1, σ.invocations⟩
  | cancel (σ : Sys) :
      Step σ ⟨Cancel σ.js, σ.invocations⟩
  | acquire (σ : Sys) :
      Step σ ⟨(AcquireTaskId σ.js).1, σ.invocations⟩
  | release (σ : Sys) (i : Nat) :
      Step σ ⟨ReleaseTaskId σ.js i, σ.invocations⟩

/-- Finitely many scheduler transitions. -/
def Steps : Sys → Sys → Prop :=
  Relation.ReflTransGen Step

/-- The state CancelAndWait waits for: canceled with no active and no
pending workers. -/
def Quiesced (s : JobState) : Prop :=
  s.is_canceled = true ∧ s.active_workers = 0 ∧ s.pending_tasks = 0

/-! ## Task-id bitmask lemmas -/

theorem lowestClearBitAux_not_set :
    ∀ fuel m : Nat, m ≤ fuel → Nat.testBit m (lowestClearBitAux fuel m) = false := by
  intro fuel
  induction fuel with
  | zero =>
    intro m hm
    have : m = 0 := by omega
    subst this
    simp [lowestClearBitAux]
  | succ fuel ih =>
    intro m hm
    rw [lowestClearBitAux]
    by_cases h : m % 2 = 0
    · rw [if_pos h]
      simp [Nat.testBit_zero]
      omega
    · rw [if_neg h, Nat.testBit_add_one]
      exact ih (m / 2) (by omega)

theorem lowestClearBitAux_least :
    ∀ fuel m j : Nat, m ≤ fuel → j < lowestClearBitAux fuel m → Nat.testBit m j = true := by
  intro fuel
  induction fuel with
  | zero =>
    intro m j _ hj
    simp [lowestClearBitAux] at hj
  | succ fuel ih =>
    intro m j hm hj
    rw [lowestClearBitAux] at hj
    by_cases h : m % 2 = 0
    · rw [if_pos h] at hj
      omega
    · rw [if_neg h] at hj
      cases j with
      | zero =>
        simp [Nat.testBit_zero]
        omega
      | succ j =>
        rw [Nat.testBit_add_one]
        exact ih (m / 2) j (by omega) (by omega)

theorem lowestClearBit_not_set (m : Nat) : m.testBit (lowestClearBit m) = false :=
  lowestClearBitAux_not_set m m le_rfl

theorem lowestClearBit_least (m j : Nat) (hj : j < lowestClearBit m) :
    m.testBit j = true :=
  lowestClearBitAux_least m m j le_rfl hj

theorem lowestClearBit_le_of_clear (m j : Nat) (h : m.testBit j = false) :
    lowestClearBit m ≤ j := by
  by_contra hc
  have := lowestClearBit_least m j (by omega)
  rw [this] at h
  simp at h

theorem lowestClearBit_lt_32 (m : Nat) (h : heldCount m < 32) :
    lowestClearBit m < 32 := by
  have hex : ∃ j, j < 32 ∧ m.testBit j = false := by
    by_contra hc
    push_neg at hc
    have hall : ∀ a ∈ List.range 32, (fun i => m.testBit i) a = true := by
      intro a ha
      have := hc a (List.mem_range.mp ha)
      simp only [Bool.not_eq_false] at this
      exact this
    have : heldCount m = 32 := by
      unfold heldCount
      rw [List.countP_eq_length.mpr hall, List.length_range]
    omega
  obtain ⟨j, hj32, hjclear⟩ := hex
  have := lowestClearBit_le_of_clear m j hjclear
  omega

theorem acquireId_lt_two_pow (m : Nat) (hm : m < 2 ^ 32) (h : heldCount m < 32) :
    (acquireId m).1 < 2 ^ 32 := by
  unfold acquireId
  refine Nat.or_lt_two_pow hm ?_
  rw [Nat.one_shiftLeft]
  exact Nat.pow_lt_pow_right (by omega) (lowestClearBit_lt_32 m h)

theorem releaseId_le (m i : Nat) : releaseId m i ≤ m := by
  unfold releaseId
  split
  · exact Nat.sub_le m (1 <<< i)
  · exact le_rfl

theorem validOps_mask_lt (ops : List IdOp) :
    ∀ m, m < 2 ^ 32 → validOps m ops = true → runMask m ops < 2 ^ 32 := by
  induction ops with
  | nil =>
    intro m hm _
    exact hm
  | cons op ops ih =>
    intro m hm hv
    cases op with
    | acq =>
      rw [validOps, Bool.and_eq_true, decide_eq_true_eq] at hv
      exact ih _ (acquireId_lt_two_pow m hm hv.1) hv.2
    | rel i =>
      rw [validOps, Bool.and_eq_true] at hv
      exact ih _ (lt_of_le_of_lt (releaseId_le m i) hm) hv.2

theorem validOps_append (pre : List IdOp) :
    ∀ m suf, validOps m (pre ++ suf) = true →
      validOps m pre = true ∧ validOps (runMask m pre) suf = true := by
  induction pre with
  | nil =>
    intro m suf h
    exact ⟨rfl, h⟩
  | cons op pre ih =>
    intro m suf h
    cases op with
    | acq =>
      rw [List.cons_append, validOps, Bool.and_eq_true] at h
      have := ih _ suf h.2
      refine ⟨?_, this.2⟩
      rw [validOps, Bool.and_eq_true]
      exact ⟨h.1, this.1⟩
    | rel i =>
      rw [List.cons_append, validOps, Bool.and_eq_true] at h
      have := ih _ suf h.2
      refine ⟨?_, this.2⟩
      rw [validOps, Bool.and_eq_true]
      exact ⟨h.1, this.1⟩

theorem testBit_lt_32_of_mask_lt (m i : Nat) (hm : m < 2 ^ 32)
    (h : m.testBit i = true) : i < 32 := by
  by_contra hc
  have h32 : (2 : Nat) ^ 32 ≤ 2 ^ i := Nat.pow_le_pow_right (by omega) (by omega)
  rw [Nat.testBit_lt_two_pow (lt_of_lt_of_le hm h32)] at h
  simp at h

/-- C6: AcquireTaskId returns the lowest-numbered bit not currently set in
assigned_task_ids and atomically sets it; under any interleaving of up to
32 concurrent acquirers/releasers (a trace of atomic bitmask operations
valid in the sense of validOps, starting from the empty mask) it never hands
out an id already held, and the set of held ids is always a subset of
0..31. -/
theorem AcquireTaskId_no_duplicates (ops pre suf : List IdOp)
    (hsplit : ops = pre ++ IdOp.acq :: suf) (hvalid : validOps 0 ops = true) :
    ((runMask 0 pre).testBit (acquireId (runMask 0 pre)).2 = false
      ∧ (acquireId (runMask 0 pre)).2 < 32
      ∧ (∀ j, j < (acquireId (runMask 0 pre)).2 → (runMask 0 pre).testBit j = true)
      ∧ (acquireId (runMask 0 pre)).1
          = runMask 0 pre ||| (1 <<< (acquireId (runMask 0 pre)).2))
    ∧ (∀ i, (runMask 0 pre).testBit i = true → i < 32) := by
  subst hsplit
  obtain ⟨hpre, hsuf⟩ := validOps_append pre 0 (IdOp.acq :: suf) hvalid
  rw [validOps, Bool.and_eq_true, decide_eq_true_eq] at hsuf
  have hmask : runMask 0 pre < 2 ^ 32 :=
    validOps_mask_lt pre 0 (by norm_num) hpre
  refine ⟨⟨lowestClearBit_not_set _, lowestClearBit_lt_32 _ hsuf.1, ?_, rfl⟩, ?_⟩
  · intro j hj
    exact lowestClearBit_least _ j hj
  · intro i hi
    exact testBit_lt_32_of_mask_lt _ i hmask hi

/-- Witness for C6 at the one-acquire trace from the empty mask. -/
theorem AcquireTaskId_no_duplicates_witness :
    ((runMask 0 []).testBit (acquireId (runMask 0 [])).2 = false
      ∧ (acquireId (runMask 0 [])).2 < 32
      ∧ (∀ j, j < (acquireId (runMask 0 [])).2 → (runMask 0 []).testBit j = true)
      ∧ (acquireId (runMask 0 [])).1
          = runMask 0 [] ||| (1 <<< (acquireId (runMask 0 [])).2))
    ∧ (∀ i, (runMask 0 []).testBit i = true → i < 32) :=
  AcquireTaskId_no_duplicates [IdOp.acq] [] [] rfl (by decide)

/-! ## Scheduler step invariants -/

theorem step_ntw_eq (σ σ' : Sys) (h : Step σ σ') :
    σ'.js.num_worker_threads = σ.js.num_worker_threads := by
  cases h with
  | notify gw σ =>
    simp only [NotifyConcurrencyIncrease, CappedMaxConcurrency]
    split <;> rfl
  | firstTask gw σ hp =>
    simp only [CanRunFirstTask, CappedMaxConcurrency]
    split
    · rfl
    · split <;> rfl
  | invoke σ ha => rfl
  | didRun gw σ ha =>
    simp only [DidRunTask, CappedMaxConcurrency]
    split <;> rfl
  | cancel σ => rfl
  | acquire σ => rfl
  | release σ i => rfl

theorem step_sum_le (σ σ' : Sys) (h : Step σ σ')
    (hs : σ.js.active_workers + σ.js.pending_tasks ≤ σ.js.num_worker_threads) :
    σ'.js.active_workers + σ'.js.pending_tasks ≤ σ'.js.num_worker_threads := by
  rw [step_ntw_eq σ σ' h]
  cases h with
  | notify gw σ =>
    have hcap := min_le_right (gw σ.js.active_workers) σ.js.num_worker_threads
    simp only [NotifyConcurrencyIncrease, CappedMaxConcurrency]
    split
    · exact hs
    · dsimp only
      omega
  | firstTask gw σ hp =>
    simp only [CanRunFirstTask, CappedMaxConcurrency]
    split
    · dsimp only
      omega
    · split
      · dsimp only
        omega
      · dsimp only
        omega
  | invoke σ ha => exact hs
  | didRun gw σ ha =>
    simp only [DidRunTask, CappedMaxConcurrency]
    split
    · exact hs
    · dsimp only
      omega
  | cancel σ => exact hs
  | acquire σ => exact hs
  | release σ i => exact hs

theorem steps_sum_le (σ σ' : Sys) (h : Steps σ σ')
    (hs : σ.js.active_workers + σ.js.pending_tasks ≤ σ.js.num_worker_threads) :
    σ'.js.active_workers + σ'.js.pending_tasks ≤ σ'.js.num_worker_threads
      ∧ σ'.js.num_worker_threads = σ.js.num_worker_threads := by
  induction h with
  | refl => exact ⟨hs, rfl⟩
  | tail hab hbc ih =>
    obtain ⟨h1, h2⟩ := ih
    refine ⟨step_sum_le _ _ hbc h1, (step_ntw_eq _ _ hbc).trans h2⟩

theorem step_quiesced (σ σ' : Sys) (h : Step σ σ') (hq : Quiesced σ.js) :
    Quiesced σ'.js ∧ σ'.invocations = σ.invocations := by
  obtain ⟨hc, ha, hp⟩ := hq
  cases h with
  | notify gw σ =>
    simp only [NotifyConcurrencyIncrease]
    rw [if_pos hc]
    exact ⟨⟨hc, ha, hp⟩, by trivial⟩
  | firstTask gw σ hpend =>
    omega
  | invoke σ hact =>
    omega
  | didRun gw σ hact =>
    omega
  | cancel σ =>
    exact ⟨⟨rfl, ha, hp⟩, rfl⟩
  | acquire σ =>
    exact ⟨⟨hc, ha, hp⟩, rfl⟩
  | release σ i =>
    exact ⟨⟨hc, ha, hp⟩, rfl⟩

theorem steps_quiesced (σ σ' : Sys) (h : Steps σ σ') (hq : Quiesced σ.js) :
    Quiesced σ'.js ∧ σ'.invocations = σ.invocations := by
  induction h with
  | refl => exact ⟨hq, rfl⟩
  | tail hab hbc ih =>
    obtain ⟨h1, h2⟩ := ih
    obtain ⟨h3, h4⟩ := step_quiesced _ _ hbc h1
    exact ⟨h3, h4.trans h2⟩

/-! ## CancelAndWait -/

theorem drainWorkers_canceled (gw : Nat → Nat) :
    ∀ n s, s.is_canceled = true → n = s.pending_tasks + s.active_workers →
      drainWorkers gw n s =
        { s with
            pending_tasks := 0
            active_workers := 0
            worker_released_signals := s.worker_released_signals + s.active_workers } := by
  intro n
  induction n with
  | zero =>
    intro s hc hn
    obtain ⟨pr, a, p, c, ntw, ids, sig⟩ := s
    dsimp only at hc hn ⊢
    have hp : p = 0 := by omega
    have ha : a = 0 := by omega
    subst hp ha
    rw [drainWorkers]
    simp
  | succ n ih =>
    intro s hc hn
    obtain ⟨pr, a, p, c, ntw, ids, sig⟩ := s
    dsimp only at hc hn ⊢
    subst hc
    rw [drainWorkers]
    by_cases hp : 0 < p
    · rw [if_pos hp]
      have hfirst : (CanRunFirstTask gw (JobState.mk pr a p true ntw ids sig)).1
          = JobState.mk pr a (p - 1) true ntw ids sig := by
        simp [CanRunFirstTask]
      rw [hfirst,
        ih (JobState.mk pr a (p - 1) true ntw ids sig) rfl (by dsimp only; omega)]
    · rw [if_neg hp]
      have hp0 : p = 0 := by omega
      subst hp0
      have hact : 0 < a := by omega
      rw [if_pos hact]
      have hdid : (DidRunTask gw (JobState.mk pr a 0 true ntw ids sig)).1
          = JobState.mk pr (a - 1) 0 true ntw ids (sig + 1) := by
        simp [DidRunTask]
      rw [hdid,
        ih (JobState.mk pr (a - 1) 0 true ntw ids (sig + 1)) rfl (by dsimp only; omega)]
      simp
      omega

theorem cancelAndWait_eq (gw : Nat → Nat) (s : JobState) :
    CancelAndWait gw s =
      { s with
          is_canceled := true
          pending_tasks := 0
          active_workers := 0
          worker_released_signals := s.worker_released_signals + s.active_workers } := by
  unfold CancelAndWait Cancel
  exact drainWorkers_canceled gw _ _ rfl rfl

/-- C8: CancelAndWait is idempotent: from any state, a second CancelAndWait
(under any current concurrency estimates) produces exactly the same
observable job state (cancellation flag, worker counts, task-id bitmap,
signal count) as a single call; the second call merely observes the
already-quiesced state. -/
theorem CancelAndWait_idempotent (gw gw' : Nat → Nat) (s : JobState) :
    CancelAndWait gw' (CancelAndWait gw s) = CancelAndWait gw s := by
  rw [cancelAndWait_eq gw s, cancelAndWait_eq gw']
  obtain ⟨pr, a, p, c, ntw, ids, sig⟩ := s
  simp

/-- C2: after CancelAndWait returns, active_workers equals zero, and from the
quiesced state it leaves behind, no sequence of further scheduler steps ever
invokes the job task again (the invocation counter never increases) and no
worker ever becomes active again. -/
theorem CancelAndWait_stops_invocations (gw : Nat → Nat) (s : JobState) :
    (CancelAndWait gw s).active_workers = 0
    ∧ ∀ (inv : Nat) (σ' : Sys), Steps ⟨CancelAndWait gw s, inv⟩ σ' →
        σ'.invocations = inv ∧ σ'.js.active_workers = 0 := by
  constructor
  · rw [cancelAndWait_eq]
  · intro inv σ' h
    have hq : Quiesced (CancelAndWait gw s) := by
      rw [cancelAndWait_eq]
      exact ⟨rfl, rfl, rfl⟩
    obtain ⟨hq', hinv⟩ := steps_quiesced _ _ h hq
    exact ⟨hinv, hq'.2.1⟩

/-- Witness for C2 at a concrete canceled job. -/
theorem CancelAndWait_stops_invocations_witness :
    (Sys.mk (CancelAndWait (fun _ => 5) { initialJobState 3 with
        active_workers := 2, pending_tasks := 1 }) 7).invocations = 7
    ∧ (Sys.mk (CancelAndWait (fun _ => 5) { initialJobState 3 with
        active_workers := 2, pending_tasks := 1 }) 7).js.active_workers = 0 :=
  (CancelAndWait_stops_invocations (fun _ => 5) { initialJobState 3 with
      active_workers := 2, pending_tasks := 1 }).2 7 _ Relation.ReflTransGen.refl

/-- C1 counterexample: the claimed invariant
active_workers + pending_tasks ≤ min(num_worker_threads, latest
GetMaxConcurrency(active_workers)) fails at the observation point right
after a NotifyConcurrencyIncrease decision point whose estimate shrank:
with num_worker_threads = 4, a first NotifyConcurrencyIncrease under
estimate 3 posts 3 workers, and a second one under estimate 1 is a no-op,
leaving active_workers + pending_tasks = 3 above min(4, 1) = 1. -/
theorem concurrencyCapClaim_cex :
    ¬ ((NotifyConcurrencyIncrease (fun _ => 1)
            (NotifyConcurrencyIncrease (fun _ => 3) (initialJobState 4)).1).1.active_workers
          + (NotifyConcurrencyIncrease (fun _ => 1)
            (NotifyConcurrencyIncrease (fun _ => 3) (initialJobState 4)).1).1.pending_tasks
        ≤ min
            (NotifyConcurrencyIncrease (fun _ => 1)
              (NotifyConcurrencyIncrease (fun _ => 3) (initialJobState 4)).1).1.num_worker_threads
            ((fun _ => 1)
              (NotifyConcurrencyIncrease (fun _ => 1)
                (NotifyConcurrencyIncrease (fun _ => 3) (initialJobState 4)).1).1.active_workers)) := by
  decide

/-- C1 (amended): at every observation point reachable by scheduler steps
from a fresh job state, active_workers + pending_tasks is at most
num_worker_threads; and at each decision point that increases the sum (a
NotifyConcurrencyIncrease that posts workers), the increased sum is at most
min(num_worker_threads, GetMaxConcurrency(active_workers)) computed from the
estimate sampled at that point.  When the estimate later shrinks the sum may
exceed the latest capped estimate (see the counterexample), so only the
bound sampled at the time of computation is re-established. -/
theorem concurrencyCapInvariant (ntw : Nat) :
    (∀ (inv : Nat) (σ' : Sys), Steps ⟨initialJobState ntw, inv⟩ σ' →
        σ'.js.active_workers + σ'.js.pending_tasks ≤ ntw)
    ∧ (∀ (gw : Nat → Nat) (s : JobState),
        s.active_workers + s.pending_tasks
            < (NotifyConcurrencyIncrease gw s).1.active_workers
              + (NotifyConcurrencyIncrease gw s).1.pending_tasks →
        (NotifyConcurrencyIncrease gw s).1.active_workers
            + (NotifyConcurrencyIncrease gw s).1.pending_tasks
          ≤ min s.num_worker_threads (gw s.active_workers)) := by
  constructor
  · intro inv σ' h
    obtain ⟨h1, h2⟩ := steps_sum_le ⟨initialJobState ntw, inv⟩ σ' h
      (by dsimp [initialJobState]; omega)
    have h3 : (Sys.mk (initialJobState ntw) inv).js.num_worker_threads = ntw := rfl
    omega
  · intro gw s hlt
    obtain ⟨pr, a, p, c, ntw, ids, sig⟩ := s
    have h1 := min_le_left (gw a) ntw
    have h2 := min_le_right (gw a) ntw
    cases c with
    | true =>
      simp [NotifyConcurrencyIncrease] at hlt
    | false =>
      simp only [NotifyConcurrencyIncrease, CappedMaxConcurrency] at hlt ⊢
      simp at hlt ⊢
      omega

/-- Witness for C1 (amended) at a fresh job state with 3 worker threads and
a posting NotifyConcurrencyIncrease under estimate 2. -/
theorem concurrencyCapInvariant_witness :
    ((Sys.mk (initialJobState 3) 0).js.active_workers
        + (Sys.mk (initialJobState 3) 0).js.pending_tasks ≤ 3)
    ∧ ((NotifyConcurrencyIncrease (fun _ => 2) (initialJobState 3)).1.active_workers
          + (NotifyConcurrencyIncrease (fun _ => 2) (initialJobState 3)).1.pending_tasks
        ≤ min (initialJobState 3).num_worker_threads
            ((fun _ => 2) (initialJobState 3).active_workers)) :=
  ⟨(concurrencyCapInvariant 3).1 0 _ Relation.ReflTransGen.refl,
    (concurrencyCapInvariant 3).2 (fun _ => 2) (initialJobState 3) (by decide)⟩

/-- C4: CanRunFirstTask, called by a freshly scheduled worker (so
pending_tasks is positive), decrements pending_tasks; it returns false
exactly when the job is canceled or the recomputed capped concurrency has no
room for this worker given the current active_workers, and in every other
case it increments active_workers and returns true. -/
theorem CanRunFirstTask_spec (gw : Nat → Nat) (s : JobState)
    (h : 0 < s.pending_tasks) :
    (CanRunFirstTask gw s).1.pending_tasks = s.pending_tasks - 1
    ∧ ((CanRunFirstTask gw s).2 = false ↔
        (s.is_canceled = true
          ∨ CappedMaxConcurrency gw s s.active_workers ≤ s.active_workers))
    ∧ ((CanRunFirstTask gw s).2 = true →
        (CanRunFirstTask gw s).1.active_workers = s.active_workers + 1)
    ∧ ((CanRunFirstTask gw s).2 = false →
        (CanRunFirstTask gw s).1.active_workers = s.active_workers) := by
  obtain ⟨pr, a, p, c, ntw, ids, sig⟩ := s
  dsimp only at h
  cases c with
  | true =>
    simp [CanRunFirstTask, CappedMaxConcurrency]
  | false =>
    by_cases hcap : min (gw a) ntw ≤ a
    · simp [CanRunFirstTask, CappedMaxConcurrency, hcap]
    · simp [CanRunFirstTask, CappedMaxConcurrency, hcap]

/-- Witness for C4 at a concrete job state with one pending worker. -/
theorem CanRunFirstTask_spec_witness :
    ((CanRunFirstTask (fun _ => 1) { initialJobState 2 with
        pending_tasks := 1 }).1.pending_tasks
      = { initialJobState 2 with pending_tasks := 1 }.pending_tasks - 1)
    ∧ ((CanRunFirstTask (fun _ => 1) { initialJobState 2 with
          pending_tasks := 1 }).2 = false ↔
        ({ initialJobState 2 with pending_tasks := 1 }.is_canceled = true
          ∨ CappedMaxConcurrency (fun _ => 1)
              { initialJobState 2 with pending_tasks := 1 }
              { initialJobState 2 with pending_tasks := 1 }.active_workers
            ≤ { initialJobState 2 with pending_tasks := 1 }.active_workers))
    ∧ ((CanRunFirstTask (fun _ => 1) { initialJobState 2 with
          pending_tasks := 1 }).2 = true →
        (CanRunFirstTask (fun _ => 1) { initialJobState 2 with
          pending_tasks := 1 }).1.active_workers
          = { initialJobState 2 with pending_tasks := 1 }.active_workers + 1)
    ∧ ((CanRunFirstTask (fun _ => 1) { initialJobState 2 with
          pending_tasks := 1 }).2 = false →
        (CanRunFirstTask (fun _ => 1) { initialJobState 2 with
          pending_tasks := 1 }).1.active_workers
          = { initialJobState 2 with pending_tasks := 1 }.active_workers) :=
  CanRunFirstTask_spec (fun _ => 1) { initialJobState 2 with pending_tasks := 1 }
    (by decide)

/-- C5: DidRunTask, called by a worker holding a slot (so active_workers is
positive), returns true exactly when the job is not canceled and
active_workers is still within the freshly recomputed capped concurrency,
leaving the whole state (in particular the worker's slot) untouched; in
every other case it decrements active_workers, signals the condition
variable (one more NotifyOne on worker_released_condition_), and returns
false. -/
theorem DidRunTask_spec (gw : Nat → Nat) (s : JobState)
    (h : 0 < s.active_workers) :
    ((DidRunTask gw s).2 = true ↔
        (s.is_canceled = false
          ∧ s.active_workers ≤ CappedMaxConcurrency gw s (s.active_workers - 1)))
    ∧ ((DidRunTask gw s).2 = true → (DidRunTask gw s).1 = s)
    ∧ ((DidRunTask gw s).2 = false →
        (DidRunTask gw s).1.active_workers = s.active_workers - 1
          ∧ (DidRunTask gw s).1.worker_released_signals
            = s.worker_released_signals + 1) := by
  obtain ⟨pr, a, p, c, ntw, ids, sig⟩ := s
  dsimp only at h
  cases c with
  | true =>
    simp [DidRunTask, CappedMaxConcurrency]
  | false =>
    by_cases hcap : a ≤ min (gw (a - 1)) ntw
    · simp [DidRunTask, CappedMaxConcurrency, hcap]
    · simp [DidRunTask, CappedMaxConcurrency, hcap]

/-- Witness for C5 at a concrete job state with one active worker. -/
theorem DidRunTask_spec_witness :
    ((DidRunTask (fun _ => 1) { initialJobState 2 with
        active_workers := 1 }).2 = true ↔
      ({ initialJobState 2 with active_workers := 1 }.is_canceled = false
        ∧ { initialJobState 2 with active_workers := 1 }.active_workers
            ≤ CappedMaxConcurrency (fun _ => 1)
                { initialJobState 2 with active_workers := 1 }
                ({ initialJobState 2 with active_workers := 1 }.active_workers - 1)))
    ∧ ((DidRunTask (fun _ => 1) { initialJobState 2 with
          active_workers := 1 }).2 = true →
        (DidRunTask (fun _ => 1) { initialJobState 2 with
          active_workers := 1 }).1 = { initialJobState 2 with active_workers := 1 })
    ∧ ((DidRunTask (fun _ => 1) { initialJobState 2 with
          active_workers := 1 }).2 = false →
        (DidRunTask (fun _ => 1) { initialJobState 2 with
          active_workers := 1 }).1.active_workers
            = { initialJobState 2 with active_workers := 1 }.active_workers - 1
          ∧ (DidRunTask (fun _ => 1) { initialJobState 2 with
              active_workers := 1 }).1.worker_released_signals
            = { initialJobState 2 with
                active_workers := 1 }.worker_released_signals + 1) :=
  DidRunTask_spec (fun _ => 1) { initialJobState 2 with active_workers := 1 }
    (by decide)

/-! ## The worker run loop -/

theorem didRunTask_true_eq (gw : Nat → Nat) (s : JobState)
    (h : (DidRunTask gw s).2 = true) : (DidRunTask gw s).1 = s := by
  by_cases hc : s.is_canceled = false
      ∧ s.active_workers ≤ CappedMaxConcurrency gw s (s.active_workers - 1)
  · simp only [DidRunTask]
    rw [if_pos hc]
  · simp only [DidRunTask] at h
    rw [if_neg hc] at h
    simp at h

theorem runLoop_spec (gs : Nat → Nat → Nat) :
    ∀ fuel k (s t : JobState) (n : Nat), runLoop gs fuel k s = some (t, n) →
      1 ≤ n
      ∧ (∀ j, k ≤ j → j < k + n - 1 → (DidRunTask (gs j) s).2 = true)
      ∧ (DidRunTask (gs (k + n - 1)) s).2 = false
      ∧ t = (DidRunTask (gs (k + n - 1)) s).1 := by
  intro fuel
  induction fuel with
  | zero =>
    intro k s t n h
    simp [runLoop] at h
  | succ fuel ih =>
    intro k s t n h
    rw [runLoop] at h
    by_cases hb : (DidRunTask (gs k) s).2 = true
    · rw [if_pos hb, didRunTask_true_eq (gs k) s hb] at h
      rcases ho : runLoop gs fuel (k + 1) s with _ | ⟨t', n'⟩
      · rw [ho] at h
        simp at h
      · rw [ho] at h
        simp only [Option.map_some', Option.some.injEq, Prod.mk.injEq] at h
        obtain ⟨ht, hn⟩ := h
        subst ht
        subst hn
        obtain ⟨ih1, ih2, ih3, ih4⟩ := ih (k + 1) s t' n' ho
        have hidx : k + 1 + n' - 1 = k + (n' + 1) - 1 := by omega
        rw [hidx] at ih3 ih4
        refine ⟨by omega, ?_, ih3, ih4⟩
        intro j hj1 hj2
        by_cases hjk : j = k
        · subst hjk
          exact hb
        · exact ih2 j (by omega) (by omega)
    · rw [if_neg hb] at h
      simp only [Option.some.injEq, Prod.mk.injEq] at h
      obtain ⟨ht, hn⟩ := h
      subst ht
      subst hn
      rw [Bool.not_eq_true] at hb
      have hidx : k + 1 - 1 = k := by omega
      rw [hidx]
      refine ⟨le_rfl, ?_, hb, rfl⟩
      intro j hj1 hj2
      omega

/-- C3: for every execution of a posted worker's Run (default-job.h lines
124-132): if the weak reference cannot be upgraded (lock yields none), Run
returns at once with no effect and zero job-task invocations; if
CanRunFirstTask returns false, Run returns without ever invoking the job
task; otherwise, whenever the run loop terminates having made n invocations,
n is at least 1, the first n-1 DidRunTask decisions returned true and the
n-th returned false, i.e. the job task is re-invoked exactly as long as each
following DidRunTask call returns true. -/
theorem DefaultJobWorker_Run_spec (gs : Nat → Nat → Nat) (fuel : Nat) :
    (runWorker gs fuel none = some (none, 0))
    ∧ (∀ s : JobState, (CanRunFirstTask (gs 0) s).2 = false →
        runWorker gs fuel (some s) = some (some (CanRunFirstTask (gs 0) s).1, 0))
    ∧ (∀ (s t : JobState) (n : Nat), (CanRunFirstTask (gs 0) s).2 = true →
        runWorker gs fuel (some s) = some (some t, n) →
        1 ≤ n
        ∧ (∀ i, 1 ≤ i → i < n →
            (DidRunTask (gs i) (CanRunFirstTask (gs 0) s).1).2 = true)
        ∧ (DidRunTask (gs n) (CanRunFirstTask (gs 0) s).1).2 = false
        ∧ t = (DidRunTask (gs n) (CanRunFirstTask (gs 0) s).1).1) := by
  refine ⟨rfl, ?_, ?_⟩
  · intro s h
    rw [runWorker]
    rw [if_neg (by simp [h])]
  · intro s t n hc2 hrun
    rw [runWorker] at hrun
    rw [if_pos hc2] at hrun
    rcases ho : runLoop gs fuel 1 (CanRunFirstTask (gs 0) s).1 with _ | ⟨t', n'⟩
    · rw [ho] at hrun
      simp at hrun
    · rw [ho] at hrun
      simp only [Option.map_some', Option.some.injEq, Prod.mk.injEq] at hrun
      obtain ⟨ht, hn⟩ := hrun
      subst ht
      subst hn
      obtain ⟨h1, h2, h3, h4⟩ := runLoop_spec gs fuel 1 _ t' n' ho
      have hidx : 1 + n' - 1 = n' := by omega
      rw [hidx] at h3 h4
      refine ⟨h1, ?_, h3, h4⟩
      intro i hi1 hi2
      exact h2 i hi1 (by omega)

/-- Witness for C3 at a worker that runs the job task exactly once. -/
theorem DefaultJobWorker_Run_spec_witness :
    1 ≤ 1
    ∧ (DidRunTask ((fun k _ => if k = 0 then 1 else 0) 1)
        (CanRunFirstTask ((fun k _ => if k = 0 then 1 else 0) 0)
          { initialJobState 2 with pending_tasks := 1 }).1).2 = false :=
  ⟨((DefaultJobWorker_Run_spec (fun k _ => if k = 0 then 1 else 0) 2).2.2
      { initialJobState 2 with pending_tasks := 1 }
      (JobState.mk 0 0 0 false 2 0 1) 1 (by decide) (by decide)).1,
    ((DefaultJobWorker_Run_spec (fun k _ => if k = 0 then 1 else 0) 2).2.2
      { initialJobState 2 with pending_tasks := 1 }
      (JobState.mk 0 0 0 false 2 0 1) 1 (by decide) (by decide)).2.2.1⟩

/-- C9: destroying a DefaultJobHandle that still holds its job state
reference, without a prior Join or Cancel, makes the destructor
cancel-and-wait: it drops the reference and the job state it observed when
the wait ended is quiesced (canceled, no active workers, no pending
workers), so destroying the handle never leaks workers bound to a dead
job. -/
theorem DefaultJobHandle_destructor_spec (gw : Nat → Nat) (s : JobState) :
    (handleDestroy gw ⟨some s⟩).2 = some (CancelAndWait gw s)
    ∧ (handleDestroy gw ⟨some s⟩).1.state = none
    ∧ (CancelAndWait gw s).is_canceled = true
    ∧ (CancelAndWait gw s).active_workers = 0
    ∧ (CancelAndWait gw s).pending_tasks = 0 := by
  refine ⟨rfl, rfl, ?_, ?_, ?_⟩ <;> rw [cancelAndWait_eq]

/-- C10: for a worker run in which the job task never calls GetTaskId, the
delegate's construction and destruction leave assigned_task_ids unchanged
(no id acquired, none released); the delegate's stored id stays the
kInvalidTaskId sentinel, which is never a valid acquired id, since any id
AcquireTaskId hands out while fewer than 32 ids are held is below 32. -/
theorem JobDelegate_no_taskid_frame (s : JobState)
    (h : heldCount s.assigned_task_ids < 32) :
    delegateDestroy s JobDelegate.init = s
    ∧ JobDelegate.init.task_id = kInvalidTaskId
    ∧ (AcquireTaskId s).2 < 32
    ∧ (AcquireTaskId s).2 ≠ kInvalidTaskId := by
  have hlt := lowestClearBit_lt_32 s.assigned_task_ids h
  refine ⟨?_, rfl, ?_, ?_⟩
  · rw [delegateDestroy,
      if_pos (show JobDelegate.init.task_id = kInvalidTaskId from rfl)]
  · exact hlt
  · simp only [AcquireTaskId, acquireId, kInvalidTaskId]
    omega

/-- Witness for C10 at a fresh job state with an empty task-id bitmap. -/
theorem JobDelegate_no_taskid_frame_witness :
    delegateDestroy (initialJobState 2) JobDelegate.init = initialJobState 2
    ∧ JobDelegate.init.task_id = kInvalidTaskId
    ∧ (AcquireTaskId (initialJobState 2)).2 < 32
    ∧ (AcquireTaskId (initialJobState 2)).2 ≠ kInvalidTaskId :=
  JobDelegate_no_taskid_frame (initialJobState 2) (by decide)

/-! ## Join -/

theorem join_isCompleted (g : Nat → Nat → Nat) :
    ∀ fuel (s : JobState) (inv : Nat) (s' : JobState) (inv' : Nat),
      Join g fuel s inv = some (s', inv') → IsCompleted (g inv') s' = true := by
  intro fuel
  induction fuel with
  | zero =>
    intro s inv s' inv' h
    simp [Join] at h
  | succ fuel ih =>
    intro s inv s' inv' h
    rw [Join] at h
    by_cases hcomp : IsCompleted (g inv) s = true
    · rw [if_pos hcomp] at h
      simp only [Option.some.injEq, Prod.mk.injEq] at h
      obtain ⟨h1, h2⟩ := h
      subst h1
      subst h2
      exact hcomp
    · rw [if_neg hcomp] at h
      by_cases hpart : s.is_canceled = false ∧
          s.active_workers < CappedMaxConcurrency (g inv) s s.active_workers
      · rw [if_pos hpart] at h
        rcases hin : JoinRunInner g (fuel + 1)
            { s with active_workers := s.active_workers + 1 } inv with _ | ⟨s1, inv1⟩
        · rw [hin, Option.none_bind] at h
          exact absurd h (by simp)
        · rw [hin, Option.some_bind] at h
          exact ih s1 inv1 s' inv' h
      · rw [if_neg hpart] at h
        exact ih s inv s' inv' h

theorem joinRunInner_retires (g : Nat → Nat → Nat) (f : Nat → Nat)
    (hg : ∀ i w, g i w = f i) (F1 : Nat) (s : JobState) (inv : Nat)
    (ha : s.active_workers = 1) (hz : f (inv + 1) = 0) :
    ∃ (s2 : JobState) (inv' : Nat), JoinRunInner g (F1 + 1) s inv = some (s2, inv')
      ∧ s2.active_workers = 0 ∧ s2.pending_tasks = s.pending_tasks
      ∧ f inv' = 0 ∧ inv < inv' := by
  rw [JoinRunInner]
  have hnoroom : ¬ (s.is_canceled = false ∧
      s.active_workers ≤ CappedMaxConcurrency (g (inv + 1)) s (s.active_workers - 1)) := by
    intro hcon
    obtain ⟨_, hle⟩ := hcon
    simp only [CappedMaxConcurrency] at hle
    rw [hg] at hle
    omega
  have hb : (DidRunTask (g (inv + 1)) s).2 = false := by
    rw [DidRunTask, if_neg hnoroom]
  have h1 : (DidRunTask (g (inv + 1)) s).1
      = { s with
          active_workers := s.active_workers - 1
          worker_released_signals := s.worker_released_signals + 1 } := by
    rw [DidRunTask, if_neg hnoroom]
  rw [if_neg (by simp [hb]), h1]
  exact ⟨_, inv + 1, rfl, show s.active_workers - 1 = 0 by omega, rfl, hz, by omega⟩

theorem joinRunInner_drains (g : Nat → Nat → Nat) (f : Nat → Nat)
    (hg : ∀ i w, g i w = f i) (hf : ∀ i, f i ≠ 0 → f (i + 1) < f i) :
    ∀ k F (s : JobState) (inv : Nat), f (inv + 1) ≤ k →
      s.active_workers = 1 → s.is_canceled = false →
      1 ≤ s.num_worker_threads → f (inv + 1) + 1 ≤ F →
      ∃ (s2 : JobState) (inv' : Nat), JoinRunInner g F s inv = some (s2, inv')
        ∧ s2.active_workers = 0 ∧ s2.pending_tasks = s.pending_tasks
        ∧ f inv' = 0 ∧ inv < inv' := by
  intro k
  induction k with
  | zero =>
    intro F s inv hk ha hc hntw hF
    obtain ⟨F1, rfl⟩ : ∃ F1, F = F1 + 1 := ⟨F - 1, by omega⟩
    exact joinRunInner_retires g f hg F1 s inv ha (by omega)
  | succ k ih =>
    intro F s inv hk ha hc hntw hF
    obtain ⟨F1, rfl⟩ : ∃ F1, F = F1 + 1 := ⟨F - 1, by omega⟩
    by_cases hz : f (inv + 1) = 0
    · exact joinRunInner_retires g f hg F1 s inv ha hz
    · rw [JoinRunInner]
      have hcond : s.is_canceled = false ∧
          s.active_workers ≤ CappedMaxConcurrency (g (inv + 1)) s (s.active_workers - 1) := by
        refine ⟨hc, ?_⟩
        simp only [CappedMaxConcurrency]
        rw [hg, ha]
        exact le_min (by omega) hntw
      have hb : (DidRunTask (g (inv + 1)) s).2 = true := by
        rw [DidRunTask, if_pos hcond]
      rw [if_pos hb, didRunTask_true_eq (g (inv + 1)) s hb]
      have hdec : f (inv + 1 + 1) < f (inv + 1) := hf (inv + 1) hz
      obtain ⟨s2, inv', hrec, h2, h3, h4, h5⟩ :=
        ih F1 s (inv + 1) (by omega) ha hc hntw (by omega)
      exact ⟨s2, inv', hrec, h2, h3, h4, by omega⟩

/-- C7: Join returns only in a state where IsCompleted also reports true
(zero remaining desired concurrency, no active and no pending workers), for
every estimate sequence and every fuel; moreover, for a job task whose
GetMaxConcurrency is a function f of the total number of invocations
performed that is strictly decreasing while positive, a Join of a fresh job
(no workers yet, not canceled, at least one worker thread) terminates within
f 0 + 2 rounds, in a completed state. -/
theorem Join_spec (g : Nat → Nat → Nat) (f : Nat → Nat)
    (hg : ∀ i w, g i w = f i) (hf : ∀ i, f i ≠ 0 → f (i + 1) < f i)
    (s : JobState) (hc : s.is_canceled = false) (ha : s.active_workers = 0)
    (hp : s.pending_tasks = 0) (hntw : 1 ≤ s.num_worker_threads) :
    (∀ (g' : Nat → Nat → Nat) (fuel : Nat) (t : JobState) (inv : Nat)
        (s' : JobState) (inv' : Nat),
      Join g' fuel t inv = some (s', inv') → IsCompleted (g' inv') s' = true)
    ∧ ∃ (s' : JobState) (inv' : Nat), Join g (f 0 + 2) s 0 = some (s', inv')
        ∧ IsCompleted (g inv') s' = true := by
  refine ⟨fun g' fuel t inv s' inv' h => join_isCompleted g' fuel t inv s' inv' h, ?_⟩
  by_cases hf0 : f 0 = 0
  · have hcomp : IsCompleted (g 0) s = true := by
      simp [IsCompleted, ha, hp, hg, hf0]
    refine ⟨s, 0, ?_, hcomp⟩
    obtain ⟨F, hF⟩ : ∃ F, f 0 + 2 = F + 1 := ⟨f 0 + 1, by omega⟩
    rw [hF, Join, if_pos hcomp]
  · have hcomp : IsCompleted (g 0) s = false := by
      simp [IsCompleted, ha, hp, hg]
      omega
    have hpart : s.is_canceled = false ∧
        s.active_workers < CappedMaxConcurrency (g 0) s s.active_workers := by
      refine ⟨hc, ?_⟩
      rw [CappedMaxConcurrency, hg, ha]
      have h1 : 1 ≤ f 0 := by omega
      exact lt_of_lt_of_le Nat.zero_lt_one (le_min h1 hntw)
    obtain ⟨F, hF⟩ : ∃ F, f 0 + 2 = F + 1 := ⟨f 0 + 1, by omega⟩
    have hdec : f (0 + 1) < f 0 := hf 0 hf0
    obtain ⟨s2, inv', hinner, hact2, hpend2, hfinv', hlt⟩ :=
      joinRunInner_drains g f hg hf (f (0 + 1)) (F + 1)
        { s with active_workers := s.active_workers + 1 } 0 le_rfl
        (show s.active_workers + 1 = 1 by omega) hc hntw (by omega)
    have hpend0 : s2.pending_tasks = 0 := by
      rw [hpend2]
      exact hp
    have hcomp2 : IsCompleted (g inv') s2 = true := by
      simp [IsCompleted, hg, hfinv', hact2, hpend0]
    refine ⟨s2, inv', ?_, hcomp2⟩
    rw [hF, Join, if_neg (by simp [hcomp]), if_pos hpart, hinner, Option.some_bind]
    obtain ⟨F2, hF2⟩ : ∃ F2, F = F2 + 1 := ⟨f 0, by omega⟩
    rw [hF2, Join, if_pos hcomp2]

/-- Witness for C7 with the draining estimate f n = 2 - n on a fresh job
state with two worker threads. -/
theorem Join_spec_witness :
    ∃ (s' : JobState) (inv' : Nat),
      Join (fun i _ => 2 - i) ((fun n => 2 - n) 0 + 2) (initialJobState 2) 0
          = some (s', inv')
        ∧ IsCompleted ((fun i _ => 2 - i) inv') s' = true :=
  (Join_spec (fun i _ => 2 - i) (fun n => 2 - n) (fun _ _ => rfl)
    (by intro n h; dsimp only at h ⊢; omega) (initialJobState 2) rfl rfl rfl
    (by decide)).2

end V8Job

